import Mathlib

/-! Verification development for the kt-demo-alarm event-ingestion pipeline.

Shallow embedding of `app/services/crawling_service.py` and
`app/utils/geo_utils.py`: Python text manipulation is modelled over
`List Char` (one entry per Unicode code point, matching Python string
indexing), the SQLite `events` table as an explicit list of rows, Python
floats as exact `ℚ`/`ℝ` arithmetic, and the regular expressions of the
source as explicit character scanners with Python `re` semantics
(leftmost match, greedy with backtracking where the pattern needs it). -/

namespace KtAlarm

/-! ## Python string primitives -/

/-- Python whitespace (`str.strip`, `\s` of `re`): space, tab, newline,
carriage return, vertical tab, form feed. -/
def isPySpace (c : Char) : Bool :=
  c = ' ' || c = '\t' || c = '\n' || c = '\r' || c = '\x0b' || c = '\x0c'

/-- Python `str.strip()` on a character list. -/
def pyStrip (cs : List Char) : List Char :=
  ((cs.dropWhile isPySpace).reverse.dropWhile isPySpace).reverse

/-- Python `str.strip()` on a `String`. -/
def pyStripS (s : String) : String := String.mk (pyStrip s.toList)

/-- Python `pat in s` (substring containment) on character lists. -/
def containsSub (cs pat : List Char) : Bool :=
  match cs with
  | [] => pat.isEmpty
  | c :: rest => pat.isPrefixOf (c :: rest) || containsSub rest pat

/-- Python `pat in s` on `String`s. -/
def containsSubS (s pat : String) : Bool := containsSub s.toList pat.toList

/-- Python `s.endswith(t)`. -/
def pyEndsWith (s t : String) : Bool := t.toList.isSuffixOf s.toList

/-- Python `str.replace(pat, rep)`: replace all non-overlapping occurrences,
scanning left to right.  `fuel` bounds the scan; callers pass the list's
length, an upper bound on the number of steps. -/
def replaceAllAux (pat rep : List Char) : Nat → List Char → List Char
  | 0, cs => cs
  | _, [] => []
  | fuel + 1, c :: rest =>
    if pat ≠ [] && pat.isPrefixOf (c :: rest) then
      rep ++ replaceAllAux pat rep fuel ((c :: rest).drop pat.length)
    else
      c :: replaceAllAux pat rep fuel rest

/-- Python `cs.replace(pat, rep)` on character lists. -/
def replaceAll (pat rep cs : List Char) : List Char :=
  replaceAllAux pat rep cs.length cs

/-- Python `s.replace(pat, rep)` on `String`s. -/
def replaceAllS (s pat rep : String) : String :=
  String.mk (replaceAll pat.toList rep.toList s.toList)

/-! ## Merger (`_merge_and_deduplicate`, crawling_service.py lines 191-221) -/

/-- The substitution `re.sub(r'\\s+', '', p)` inside the dedup-key f-string
at crawling_service.py line 211.  The raw string `r'\\s+'` is the four
characters backslash, backslash, `s`, `+`; as a regex it matches one literal
backslash followed by one or more letters `s` — not whitespace (this is the
subject of the C2 finding). -/
def subBackslashS : Nat → List Char → List Char
  | 0, cs => cs
  | _, [] => []
  | fuel + 1, c :: rest =>
    if c = '\\' && rest.head? = some 's' then
      subBackslashS fuel (rest.dropWhile (fun d => d = 's'))
    else
      c :: subBackslashS fuel rest

/-- The key normalization the code actually applies to a place token. -/
def keyNormalize (p : String) : String :=
  String.mk (subBackslashS p.toList.length p.toList)

/-- Whitespace removal: the intended reading of the dedup key's
normalization (`re.sub(r'\s+', '', p)`, as written everywhere else in the
repository, e.g. spatic_crawler.py line 50), and what the spec means by a
normalized place token in the merge key. -/
def stripAllWs (s : String) : String :=
  String.mk (s.toList.filter (fun c => !isPySpace c))

/-- The fields of a crawled row that `_merge_and_deduplicate` reads: `년`,
`월`, `일`, `start_time` and the place-token list `장소_원본` (the remaining
dict entries are copied through unchanged and play no part in merging). -/
structure MergeRow where
  year : String
  month : String
  day : String
  startTime : String
  places : List String
deriving DecidableEq

/-- The dedup key `f"{y}{m}{d}_{start}_{re.sub(r'\\s+', '', p)}"`. -/
def mergeKey (r : MergeRow) (p : String) : String :=
  r.year ++ r.month ++ r.day ++ "_" ++ r.startTime ++ "_" ++ keyNormalize p

/-- One row's inner loop over its place tokens: a token survives iff its key
has not been seen, and its key is added to `seen`. -/
def keepUnseen (r : MergeRow) : List String → List String → List String × List String
  | [], seen => ([], seen)
  | p :: rest, seen =>
    if mergeKey r p ∈ seen then keepUnseen r rest seen
    else
      let out := keepUnseen r rest (mergeKey r p :: seen)
      (p :: out.1, out.2)

/-- The outer loop of `_merge_and_deduplicate`: a row with no surviving
tokens is dropped entirely. -/
def mergeLoop : List MergeRow → List String → List MergeRow
  | [], _ => []
  | r :: rest, seen =>
    let out := keepUnseen r r.places seen
    if out.1 ≠ [] then { r with places := out.1 } :: mergeLoop rest out.2
    else mergeLoop rest out.2

/-- `_merge_and_deduplicate(smpa_list, spatic_list)`: concatenate in source
order, then one dedup pass. -/
def mergeAndDeduplicate (smpa spatic : List MergeRow) : List MergeRow :=
  mergeLoop (smpa ++ spatic) []

/-- A single-token row at the date and start time of end-to-end scenario B. -/
def rowScenarioB (p : String) : MergeRow :=
  { year := "2025", month := "08", day := "15", startTime := "09:00", places := [p] }

/-! ## EventSynchronizer (`_sync_events_to_db`, crawling_service.py lines 223-296) -/

/-- A row of the `events` table, with the columns `_sync_events_to_db`
inserts.  Coordinates are exact rationals standing for the Python floats. -/
structure EventRec where
  title : String
  description : String
  location_name : String
  location_address : String
  latitude : ℚ
  longitude : ℚ
  start_date : String
  end_date : String
  category : String
  severity_level : Int
  eventStatus : String
deriving DecidableEq

/-- SQLite `DATE(x)` on a `'YYYY-MM-DD HH:MM:SS'` literal: its date part,
the first 10 characters. -/
def sqliteDate (s : String) : String := String.mk (s.toList.take 10)

/-- The duplicate check of the `SELECT` at crawling_service.py lines 250-260:
an existing row `r` matches the incoming event `e` when it has the same
`location_name` and calendar date, or the same `title` and calendar date. -/
def dupMatch (r e : EventRec) : Bool :=
  (r.location_name == e.location_name && sqliteDate r.start_date == sqliteDate e.start_date) ||
  (r.title == e.title && sqliteDate r.start_date == sqliteDate e.start_date)

/-- Whether some row of `store` matches `e` under the duplicate check. -/
def isDup (store : List EventRec) (e : EventRec) : Bool :=
  store.any (fun r => dupMatch r e)

/-- The per-run counters and the rows inserted so far.  Inserted rows are
uncommitted but visible to the connection's own duplicate-check `SELECT`s,
so the loop's reads see `committed ++ pending`. -/
structure SyncState where
  pending : List EventRec
  inserted : Nat
  duplicate : Nat
  errors : Nat
deriving DecidableEq

def initSyncState : SyncState := ⟨[], 0, 0, 0⟩

/-- The `for i, event in enumerate(events)` loop.  `rowOk i` says whether
row `i`'s `INSERT` succeeds; a failing row raises `sqlite3.Error`, which the
loop catches, counts in `error_count` and skips (`continue`). -/
def syncLoop (committed : List EventRec) (rowOk : Nat → Bool) :
    List EventRec → Nat → SyncState → SyncState
  | [], _, st => st
  | e :: rest, i, st =>
    let st' :=
      if isDup (committed ++ st.pending) e then
        { st with duplicate := st.duplicate + 1 }
      else if rowOk i then
        { st with pending := st.pending ++ [e], inserted := st.inserted + 1 }
      else
        { st with errors := st.errors + 1 }
    syncLoop committed rowOk rest (i + 1) st'

/-- `_sync_events_to_db`: one `BEGIN TRANSACTION` per run; `commitOk` says
whether `db.commit()` succeeds.  Result: the committed store after the run,
and either the run's counters `(inserted, duplicate, errors)` or the
propagated transaction-level error after `db.rollback()`.  An empty event
list returns 0 without touching the database. -/
def syncEventsToDb (events : List EventRec) (committed : List EventRec)
    (rowOk : Nat → Bool) (commitOk : Bool) :
    List EventRec × Except Unit (Nat × Nat × Nat) :=
  if events = [] then (committed, .ok (0, 0, 0))
  else
    let st := syncLoop committed rowOk events 0 initSyncState
    if commitOk then
      (committed ++ st.pending, .ok (st.inserted, st.duplicate, st.errors))
    else
      (committed, .error ())

/-- The oracle of a run in which no `INSERT` raises. -/
def allRowsOk : Nat → Bool := fun _ => true


/-! ## Lemmas about the synchronizer loop -/

theorem dupMatch_self (e : EventRec) : dupMatch e e = true := by
  simp [dupMatch]

theorem isDup_of_mem {e : EventRec} {S : List EventRec} (h : e ∈ S) :
    isDup S e = true := by
  simp only [isDup, List.any_eq_true]
  exact ⟨e, h, dupMatch_self e⟩

theorem isDup_append_left {S T : List EventRec} {e : EventRec}
    (h : isDup S e = true) : isDup (S ++ T) e = true := by
  simp only [isDup, List.any_append, Bool.or_eq_true]
  exact Or.inl h

theorem syncLoop_pending_extends (c : List EventRec) (ok : Nat → Bool) :
    ∀ (evs : List EventRec) (i : Nat) (st : SyncState),
      ∃ t, (syncLoop c ok evs i st).pending = st.pending ++ t := by
  intro evs
  induction evs with
  | nil => exact fun i st => ⟨[], by simp [syncLoop]⟩
  | cons e rest ih =>
    intro i st
    rw [syncLoop]
    by_cases h1 : isDup (c ++ st.pending) e = true
    · simpa [h1] using ih (i + 1) { st with duplicate := st.duplicate + 1 }
    · by_cases h2 : ok i = true
      · obtain ⟨t, ht⟩ := ih (i + 1)
          { st with pending := st.pending ++ [e], inserted := st.inserted + 1 }
        exact ⟨e :: t, by simpa [h1, h2, List.append_assoc] using ht⟩
      · simpa [h1, h2] using ih (i + 1) { st with errors := st.errors + 1 }

theorem syncLoop_dup_preserved (c : List EventRec) (ok : Nat → Bool)
    (evs : List EventRec) (i : Nat) (st : SyncState) (e : EventRec)
    (h : isDup (c ++ st.pending) e = true) :
    isDup (c ++ (syncLoop c ok evs i st).pending) e = true := by
  obtain ⟨t, ht⟩ := syncLoop_pending_extends c ok evs i st
  rw [ht, ← List.append_assoc]
  exact isDup_append_left h

theorem syncLoop_processed_dup (c : List EventRec) :
    ∀ (evs : List EventRec) (i : Nat) (st : SyncState) (e : EventRec), e ∈ evs →
      isDup (c ++ (syncLoop c allRowsOk evs i st).pending) e = true := by
  intro evs
  induction evs with
  | nil => intro i st e he; cases he
  | cons f rest ih =>
    intro i st e he
    rw [syncLoop]
    by_cases h1 : isDup (c ++ st.pending) f = true
    · simp only [h1, if_pos rfl]
      rcases List.mem_cons.mp he with rfl | hr
      · exact syncLoop_dup_preserved c allRowsOk rest (i + 1) _ e h1
      · exact ih (i + 1) _ e hr
    · have h2 : allRowsOk i = true := rfl
      simp only [h1, h2]
      rcases List.mem_cons.mp he with rfl | hr
      · refine syncLoop_dup_preserved c allRowsOk rest (i + 1) _ e ?_
        exact isDup_of_mem (by simp)
      · exact ih (i + 1) _ e hr

theorem syncLoop_all_dup (c : List EventRec) (ok : Nat → Bool) :
    ∀ (evs : List EventRec) (i : Nat) (st : SyncState),
      (∀ e ∈ evs, isDup c e = true) →
      syncLoop c ok evs i st = { st with duplicate := st.duplicate + evs.length } := by
  intro evs
  induction evs with
  | nil => intro i st _; simp [syncLoop]
  | cons e rest ih =>
    intro i st h
    rw [syncLoop]
    have hd : isDup (c ++ st.pending) e = true := isDup_append_left (h e (by simp))
    simp only [hd, if_pos rfl]
    rw [ih (i + 1) _ (fun x hx => h x (by simp [hx]))]
    cases st
    simp [List.length_cons]
    omega

theorem syncLoop_counts (c : List EventRec) (ok : Nat → Bool) :
    ∀ (evs : List EventRec) (i : Nat) (st : SyncState),
      (syncLoop c ok evs i st).inserted + (syncLoop c ok evs i st).duplicate +
          (syncLoop c ok evs i st).errors =
        st.inserted + st.duplicate + st.errors + evs.length := by
  intro evs
  induction evs with
  | nil => intro i st; simp [syncLoop]
  | cons e rest ih =>
    intro i st
    rw [syncLoop]
    by_cases h1 : isDup (c ++ st.pending) e = true
    · simp only [h1, if_pos rfl]
      rw [ih]
      simp [List.length_cons]
      omega
    · by_cases h2 : ok i = true
      · simp only [h1, h2, if_neg, if_pos rfl]
        rw [ih]
        simp [List.length_cons]
        omega
      · simp only [h1, h2]
        rw [ih]
        simp [List.length_cons]
        omega

theorem syncLoop_mem_pending (c : List EventRec) (ok : Nat → Bool) :
    ∀ (evs : List EventRec) (i : Nat) (st : SyncState) (e : EventRec),
      e ∈ (syncLoop c ok evs i st).pending →
      e ∈ st.pending ∨ isDup c e = false := by
  intro evs
  induction evs with
  | nil => intro i st e he; exact Or.inl (by simpa [syncLoop] using he)
  | cons f rest ih =>
    intro i st e he
    rw [syncLoop] at he
    by_cases h1 : isDup (c ++ st.pending) f = true
    · rw [if_pos h1] at he
      exact ih (i + 1) { st with duplicate := st.duplicate + 1 } e he
    · rw [if_neg h1] at he
      by_cases h2 : ok i = true
      · rw [if_pos h2] at he
        rcases ih (i + 1)
            { st with pending := st.pending ++ [f], inserted := st.inserted + 1 } e he
          with hm | hm
        · have hm1 : e ∈ st.pending ++ [f] := hm
          rcases List.mem_append.mp hm1 with hm2 | hm2
          · exact Or.inl hm2
          · right
            have hef : e = f := by simpa using hm2
            subst hef
            by_contra hne
            have hct : isDup c e = true := by
              cases hcb : isDup c e
              · exact absurd hcb hne
              · rfl
            exact h1 (isDup_append_left hct)
        · exact Or.inr hm
      · rw [if_neg h2] at he
        exact ih (i + 1) { st with errors := st.errors + 1 } e he

theorem syncLoop_pairwise (c : List EventRec) (ok : Nat → Bool) :
    ∀ (evs : List EventRec) (i : Nat) (st : SyncState),
      st.pending.Pairwise (fun a b => dupMatch a b = false) →
      (syncLoop c ok evs i st).pending.Pairwise (fun a b => dupMatch a b = false) := by
  intro evs
  induction evs with
  | nil => intro i st h; simpa [syncLoop] using h
  | cons f rest ih =>
    intro i st h
    rw [syncLoop]
    by_cases h1 : isDup (c ++ st.pending) f = true
    · simp only [h1, if_pos rfl]
      exact ih (i + 1) _ h
    · by_cases h2 : ok i = true
      · simp only [h1, h2]
        refine ih (i + 1) _ ?_
        have hall : ∀ a ∈ st.pending, dupMatch a f = false := by
          have hfalse : isDup (c ++ st.pending) f = false := by
            cases hcb : isDup (c ++ st.pending) f
            · rfl
            · exact absurd hcb h1
          intro a ha
          have := (List.any_eq_false.mp (by simpa [isDup] using hfalse)) a
            (List.mem_append.mpr (Or.inr ha))
          simpa using this
        refine List.pairwise_append.mpr ⟨h, by simp, ?_⟩
        intro a ha b hb
        have : b = f := by simpa using hb
        subst this
        exact hall a ha
      · simp only [h1, h2]
        exact ih (i + 1) _ h

/-! ## C1, C2, C3 -/

/-- C2: counter-evidence for the Merger claim.  Two single-token rows with
the same date and start time whose place tokens differ only in interior
whitespace (`"서울 역"` vs `"서울역"`) are BOTH retained by
`_merge_and_deduplicate`, although their whitespace-normalized tokens are
equal: the dedup key applies `re.sub(r'\\s+', '', p)`, which removes literal
backslash-`s` sequences, not whitespace.  Exact duplicates (end-to-end
scenario B) are still collapsed to one merged row. -/
theorem merge_whitespace_key_divergence :
    mergeAndDeduplicate [rowScenarioB "서울 역"] [rowScenarioB "서울역"] =
        [rowScenarioB "서울 역", rowScenarioB "서울역"] ∧
    stripAllWs "서울 역" = stripAllWs "서울역" ∧
    keyNormalize "서울 역" ≠ keyNormalize "서울역" ∧
    mergeAndDeduplicate [rowScenarioB "서울역"] [rowScenarioB "서울역"] =
        [rowScenarioB "서울역"] :=
  ⟨by decide, by decide, by decide, by decide⟩

/-- C1: EventSynchronizer persistence is idempotent: a second run of
`_sync_events_to_db` over the same event list inserts nothing and reports
every row as a duplicate; one run never inserts two rows that agree on
`(location_name, date)` or `(title, date)`; a row already matched in the
store is skipped, never inserted; and a committed run appends exactly its
inserted rows to the store with no row counted as failed. -/
theorem eventSynchronizer_idempotent (events store : List EventRec) :
    (syncEventsToDb events (syncEventsToDb events store allRowsOk true).1 allRowsOk true =
        ((syncEventsToDb events store allRowsOk true).1,
          Except.ok (0, events.length, 0))) ∧
    ((syncLoop store allRowsOk events 0 initSyncState).pending).Pairwise
        (fun a b => dupMatch a b = false) ∧
    (∀ e ∈ events, isDup store e = true →
        e ∉ (syncLoop store allRowsOk events 0 initSyncState).pending) ∧
    ((syncEventsToDb events store allRowsOk true).1 =
        store ++ (syncLoop store allRowsOk events 0 initSyncState).pending) ∧
    (syncLoop store allRowsOk events 0 initSyncState).errors = 0 := by
  have hpend4 : (syncEventsToDb events store allRowsOk true).1 =
      store ++ (syncLoop store allRowsOk events 0 initSyncState).pending := by
    by_cases hev : events = []
    · subst hev
      simp [syncEventsToDb, syncLoop, initSyncState]
    · simp [syncEventsToDb, hev]
  refine ⟨?_, ?_, ?_, hpend4, ?_⟩
  · by_cases hev : events = []
    · subst hev
      simp [syncEventsToDb]
    · have hall : ∀ e ∈ events, isDup (syncEventsToDb events store allRowsOk true).1 e = true := by
        intro e he
        rw [hpend4]
        exact syncLoop_processed_dup store events 0 initSyncState e he
      rw [syncEventsToDb]
      rw [if_neg hev, syncLoop_all_dup _ allRowsOk events 0 initSyncState hall]
      simp [initSyncState]
  · exact syncLoop_pairwise store allRowsOk events 0 initSyncState (by simp [initSyncState])
  · intro e _ hdup hmem
    rcases syncLoop_mem_pending store allRowsOk events 0 initSyncState e hmem with hm | hm
    · simp [initSyncState] at hm
    · rw [hdup] at hm
      cases hm
  · have h := syncLoop_counts store allRowsOk events 0 initSyncState
    -- with allRowsOk every row is a duplicate or an insert, never an error
    have herr : ∀ (evs : List EventRec) (i : Nat) (st : SyncState),
        (syncLoop store allRowsOk evs i st).errors = st.errors := by
      intro evs
      induction evs with
      | nil => intro i st; simp [syncLoop]
      | cons f rest ih =>
        intro i st
        rw [syncLoop]
        by_cases h1 : isDup (store ++ st.pending) f = true
        · rw [if_pos h1, ih]
        · rw [if_neg h1]
          have h2 : allRowsOk i = true := rfl
          rw [if_pos h2, ih]
    simpa [initSyncState] using herr events 0 initSyncState

/-- C3: one synchronization run is one transaction.  When the commit
succeeds, the run appends exactly the rows its loop inserted, and every row
of the input was processed as an insert, a duplicate or a caught per-row
error (a failing row never aborts the loop: the three counters always sum
to the input length, for every error oracle).  When the transaction-level
commit fails, the store is rolled back unchanged and the error propagates. -/
theorem syncEventsToDb_transactional (events store : List EventRec)
    (rowOk : Nat → Bool) :
    (syncEventsToDb events store rowOk true =
        (store ++ (syncLoop store rowOk events 0 initSyncState).pending,
          Except.ok ((syncLoop store rowOk events 0 initSyncState).inserted,
            (syncLoop store rowOk events 0 initSyncState).duplicate,
            (syncLoop store rowOk events 0 initSyncState).errors))) ∧
    ((syncLoop store rowOk events 0 initSyncState).inserted +
        (syncLoop store rowOk events 0 initSyncState).duplicate +
        (syncLoop store rowOk events 0 initSyncState).errors = events.length) ∧
    (events ≠ [] → syncEventsToDb events store rowOk false = (store, Except.error ())) := by
  refine ⟨?_, ?_, ?_⟩
  · by_cases hev : events = []
    · subst hev
      simp [syncEventsToDb, syncLoop, initSyncState]
    · simp [syncEventsToDb, hev]
  · simpa [initSyncState] using syncLoop_counts store rowOk events 0 initSyncState
  · intro hev
    simp [syncEventsToDb, hev]


/-! ## Generic regex-substitution scanner -/

/-- `re.sub` driver: scan left to right; where `matchAt` fires it returns the
replacement text and the remainder after the (non-empty) match, and scanning
resumes there; otherwise one character is emitted.  `fuel` bounds the scan
(callers pass the list's length). -/
def scanSub (matchAt : List Char → Option (List Char × List Char)) :
    Nat → List Char → List Char
  | 0, cs => cs
  | _, [] => []
  | fuel + 1, c :: rest =>
    match matchAt (c :: rest) with
    | some (rep, after) => rep ++ scanSub matchAt fuel after
    | none => c :: scanSub matchAt fuel rest

/-- Python `\s+` collapse: each whitespace run becomes one space
(`re.sub(r'\s+', ' ', s)`). -/
def collapseWs : Nat → List Char → List Char
  | 0, cs => cs
  | _, [] => []
  | fuel + 1, c :: rest =>
    if isPySpace c then ' ' :: collapseWs fuel (rest.dropWhile isPySpace)
    else c :: collapseWs fuel rest

/-- Python `s.split()`: split on whitespace runs, no empty tokens. -/
def pySplitWs : Nat → List Char → List (List Char)
  | 0, _ => []
  | _, [] => []
  | fuel + 1, c :: rest =>
    if isPySpace c then pySplitWs fuel (rest.dropWhile isPySpace)
    else
      let tok := (c :: rest).takeWhile (fun d => !isPySpace d)
      tok :: pySplitWs fuel ((c :: rest).dropWhile (fun d => !isPySpace d))

/-- `" ".join(parts)` on character lists. -/
def joinSpace : List (List Char) → List Char
  | [] => []
  | [p] => p
  | p :: rest => p ++ ' ' :: joinSpace rest

/-! ## PlaceNormalizer (`_normalize_place_name`, crawling_service.py lines 708-745) -/

/-- `re.sub(r'\d+(\.\d+)?km', '', t)` at one position: a digit run, an
optional fractional part, then `km`; returns the remainder after the match. -/
def matchKmAt (cs : List Char) : Option (List Char) :=
  let ds := cs.takeWhile Char.isDigit
  let rest := cs.dropWhile Char.isDigit
  if ds.isEmpty then none
  else
    let withFrac :=
      match rest with
      | '.' :: r2 =>
        if (r2.takeWhile Char.isDigit).isEmpty then none
        else
          match r2.dropWhile Char.isDigit with
          | 'k' :: 'm' :: r3 => some r3
          | _ => none
      | _ => none
    match withFrac with
    | some r => some r
    | none =>
      match rest with
      | 'k' :: 'm' :: r3 => some r3
      | _ => none

def isOpenBracket (c : Char) : Bool := c = '<' || c = '[' || c = '('

def isCloseBracket (c : Char) : Bool := c = '>' || c = ']' || c = ')'

/-- The shortest completion of `.*?[>\]\)]` (`.` never crosses a newline):
the remainder after the first closing glyph, if one comes before a newline. -/
def findCloseBracket : List Char → Option (List Char)
  | [] => none
  | c :: rest =>
    if isCloseBracket c then some rest
    else if c = '\n' then none
    else findCloseBracket rest

/-- `re.sub(r'[<\[\(].*?[>\]\)]', '', t)` at one position. -/
def matchBracketAt (cs : List Char) : Option (List Char) :=
  match cs with
  | c :: rest => if isOpenBracket c then findCloseBracket rest else none
  | [] => none

/-- `re.sub(r'\(.*$', '', t)`: from the leftmost `(` after which `.*` can
reach `$`, everything on to the line end is removed.  `$` matches only at
the end of the string or just before a string-final newline, and `.` does
not cross a newline, so the match exists iff the remainder after the `(`
has no newline at all, or exactly one, final, newline (which `$` does not
consume). -/
def subParenToEnd : List Char → List Char
  | [] => []
  | c :: rest =>
    if c = '(' then
      if rest.all (fun d => !(d = '\n')) then []
      else if rest.getLast? = some '\n' && rest.dropLast.all (fun d => !(d = '\n')) then
        ['\n']
      else c :: subParenToEnd rest
    else c :: subParenToEnd rest

/-- `PLACE_NAME_REPLACE_MAP` (crawling_service.py lines 33-41), in insertion
order. -/
def placeNameReplaceMap : List (String × String) :=
  [("효자파출소", "청운파출소"), ("효자치안센터", "청운파출소"),
   ("남대문서", "남대문경찰서"), ("파이낸스", "서울파이낸스센터"),
   ("의사당역", "국회의사당역"), ("사랑채", "청와대 사랑채"),
   ("전쟁기념관", "용산 전쟁기념관")]

/-- The alias loop: replace `old` by `new` only when `old` occurs and `new`
does not occur yet. -/
def applyAliases (cs : List Char) : List Char :=
  placeNameReplaceMap.foldl
    (fun t pr =>
      if containsSub t pr.1.toList && !containsSub t pr.2.toList then
        replaceAll pr.1.toList pr.2.toList t
      else t)
    cs

def isSplitGlyph (c : Char) : Bool := c = '⇄' || c = '↔' || c = '→' || c = '~'

/-- The direction-separator handling: when a separator glyph occurs, keep
only the stripped text before the first one (`re.split(r'[⇄↔→~]', t)[0]`). -/
def splitFirstSegment (cs : List Char) : List Char :=
  if cs.any isSplitGlyph then pyStrip (cs.takeWhile (fun c => !isSplitGlyph c))
  else cs

/-- `re.sub(r'(\d+)\s*出', r'\1번출구', t)` at one position. -/
def matchExitAt (cs : List Char) : Option (List Char × List Char) :=
  let ds := cs.takeWhile Char.isDigit
  if ds.isEmpty then none
  else
    match (cs.dropWhile Char.isDigit).dropWhile isPySpace with
    | '出' :: r => some (ds ++ "번출구".toList, r)
    | _ => none

/-- The direction/position filler words of `noise_regex`
(crawling_service.py lines 736-740), in alternation order. -/
def noiseWords : List String :=
  ["동측", "서측", "남측", "북측", "동쪽", "서쪽", "남쪽", "북쪽", "건너편",
   "맞은편", "옆", "방향", "방면", "부근", "일대", "진입로", "사거리", "교차로",
   "삼거리", "오거리", "출구", "입구", "인근", "앞", "뒤", "안", "밖"]

/-- `re.sub(noise_regex, ' ', t)` at one position: the first alternative (in
pattern order) that matches is replaced by a space. -/
def matchNoiseAt (cs : List Char) : Option (List Char × List Char) :=
  match noiseWords.find? (fun w => w.toList.isPrefixOf cs) with
  | some w => some ([' '], cs.drop w.length)
  | none => none

/-- Python's `\w` (Unicode), restricted to the character repertoire this
pipeline sees: ASCII alphanumerics, underscore, Hangul syllables and jamo,
and CJK ideographs. -/
def isWordChar (c : Char) : Bool :=
  c.isAlphanum || c = '_' ||
  (0xAC00 ≤ c.toNat && c.toNat ≤ 0xD7A3) ||
  (0x1100 ≤ c.toNat && c.toNat ≤ 0x11FF) ||
  (0x3130 ≤ c.toNat && c.toNat ≤ 0x318F) ||
  (0x4E00 ≤ c.toNat && c.toNat ≤ 0x9FFF)

/-- `_normalize_place_name(place)`: the full cleaning pipeline, step for
step in source order. -/
def normalizePlaceName (place : String) : String :=
  let t := pyStrip place.toList
  let t := replaceAll "구)".toList [] t
  let t := replaceAll "(구)".toList [] t
  let t := scanSub (fun cs => (matchKmAt cs).map (fun r => (([] : List Char), r))) t.length t
  let t := scanSub (fun cs => (matchBracketAt cs).map (fun r => (([] : List Char), r))) t.length t
  let t := subParenToEnd t
  let t := applyAliases t
  let t := splitFirstSegment t
  let t := scanSub matchExitAt t.length t
  let t := replaceAll "出".toList "출구".toList t
  let t := scanSub matchNoiseAt t.length t
  let t := t.map (fun c => if isWordChar c || isPySpace c then c else ' ')
  let t := pyStrip (collapseWs t.length t)
  String.mk t

/-! ## C9 -/

/-- Representative bulletin place-name inputs: the strings exercised by the
repository's own tests (`test_crawling_service.py`) together with typical
crawled place descriptions covering every pipeline step (aliases, km and
bracket removal, separators, 出-notation, noise words, padding). -/
def normalizerTestInputs : List String :=
  ["광화문", "서울역", "시청", "숭례문", "효자파출소 앞", "효자치안센터",
   "광화문 1.5km 지점", "광화문(정부청사)", "서울역 남쪽 방면", "남대문서 일대",
   "파이낸스 앞", "의사당역 3出", "전쟁기념관 북측", "청와대 사랑채 인근",
   "삼각지역 교차로", "국회의사당역 2번출구", "숭례문 → 서울역", "용산역 광장",
   "경복궁역 사거리", " 시청 앞 "]

/-- C9 (amended): place-name normalization is idempotent on the tested
representative inputs.  It is not idempotent on all strings (see the
counterexample): km-annotation removal can newly apply on a second pass
after bracket removal has glued a number onto `km`. -/
theorem normalize_idempotent_on_tested_inputs :
    normalizerTestInputs.all
        (fun x => normalizePlaceName (normalizePlaceName x) == normalizePlaceName x) =
      true := by decide

/-- C9 counterexample: `normalize("3(x)km") = "3km"` (the km regex runs
before bracket removal, so it does not fire), but a second application
removes the now-adjacent `3km`, giving `""`. -/
theorem normalize_not_idempotent_cex :
    ¬ (normalizePlaceName (normalizePlaceName "3(x)km") = normalizePlaceName "3(x)km") := by
  decide


/-! ## GeoResolver (`_kakao_geocode_multi` and `_resolve_location_info`,
crawling_service.py lines 747-866) -/

/-- What `get_location_info` (geo_utils.py lines 108-150) hands back for a
query: the first search document's address (`road_address_name` or
`address_name`; an absent one is modelled as `""`, which is falsy exactly
like Python's) and its coordinates `x` (longitude) and `y` (latitude) as
exact rationals standing for the floats. -/
structure LocInfo where
  address : String
  x : ℚ
  y : ℚ
deriving DecidableEq

/-- The candidate-query list of `_kakao_geocode_multi` (lines 760-766),
built in source order: city-prefixed and bare name, then city plus last and
first whitespace token when the name has several, then the station variant
for names of at most five characters not already ending in `역`. -/
def rankedCandidates (clean : String) : List String :=
  let candidates := ["서울 " ++ clean, clean]
  let tokens := (pySplitWs clean.toList.length clean.toList).map String.mk
  let candidates :=
    if tokens.length > 1 then
      candidates ++ ["서울 " ++ tokens.getLastD "", "서울 " ++ tokens.headD ""]
    else candidates
  if !(pyEndsWith clean "역") && clean.length ≤ 5 then
    candidates ++ ["서울 " ++ clean ++ "역"]
  else candidates

/-- The skip test `len(query.replace("서울", "").strip()) < 2`: every
occurrence of the city name is removed, not only a leading one. -/
def candidateSkipped (q : String) : Bool :=
  (pyStrip (replaceAll "서울".toList [] q.toList)).length < 2

/-- The home-region filter `if addr and "서울" not in addr[:5]: continue`:
a result is accepted unless its address is nonempty and `서울` does not
occur within the first five characters. -/
def seoulAccepts (r : LocInfo) : Bool :=
  r.address.isEmpty || containsSub (r.address.toList.take 5) "서울".toList

/-- The candidate loop of `_kakao_geocode_multi` (lines 768-784): skip short
candidates, query the geocoder, skip rejected or empty results, return the
first accepted `(y, x)`. -/
def kakaoLoop (geo : String → Option LocInfo) : List String → Option (ℚ × ℚ)
  | [] => none
  | q :: rest =>
    if candidateSkipped q then kakaoLoop geo rest
    else
      match geo q with
      | some r => if seoulAccepts r then some (r.y, r.x) else kakaoLoop geo rest
      | none => kakaoLoop geo rest

/-- `_kakao_geocode_multi(place)`: Python's `(lat, lon)` pair with `None`
for a missing side.  A cleaned name shorter than two characters (including
the empty string) aborts before any query. -/
def kakaoGeocodeMulti (geo : String → Option LocInfo) (place : String) :
    Option ℚ × Option ℚ :=
  let clean := normalizePlaceName place
  if clean.length < 2 then (none, none)
  else
    match kakaoLoop geo (rankedCandidates clean) with
    | some yx => (some yx.1, some yx.2)
    | none => (none, none)

/-! ## Row-embedded coordinates (`_parse_coordinate_value`, lines 842-866) -/

/-- An element of a JSON coordinate array: `null`, a number, or something
`float()` cannot convert (its `ValueError` is caught by the function's outer
`except`, aborting the whole parse). -/
inductive JElem
  | null
  | num (q : ℚ)
  | nonNumeric
deriving DecidableEq

/-- The `위도`/`경도` field after `str(raw_val).strip()`, its string and
JSON decoding abstracted into shape constructors: `blank` covers `''`,
`'nan'` and `'None'`; `scalar` a non-bracketed value `float()` accepts;
`nonNumericScalar` a non-bracketed value it rejects; `arr` a bracketed
valid JSON list; `badJson` a bracketed string `json.loads` rejects, or
bracketed JSON that is not a list. -/
inductive CoordRaw
  | blank
  | scalar (q : ℚ)
  | nonNumericScalar
  | arr (elems : List JElem)
  | badJson
deriving DecidableEq

/-- The bounding-box test `33 <= val <= 39 or 124 <= val <= 132`, applied
identically to the latitude and the longitude field. -/
def inKoreaRange (v : ℚ) : Bool :=
  (decide (33 ≤ v) && decide (v ≤ 39)) || (decide (124 ≤ v) && decide (v ≤ 132))

/-- The array loop of `_parse_coordinate_value`: null elements are skipped,
an out-of-range number moves on to the next element, the first in-range
number is returned, and a non-numeric element aborts the parse. -/
def coordArrLoop : List JElem → Option ℚ
  | [] => none
  | .null :: rest => coordArrLoop rest
  | .nonNumeric :: _ => none
  | .num q :: rest => if inKoreaRange q then some q else coordArrLoop rest

/-- `_parse_coordinate_value(raw_val)`. -/
def parseCoordinateValue : CoordRaw → Option ℚ
  | .blank => none
  | .nonNumericScalar => none
  | .badJson => none
  | .scalar q => if inKoreaRange q then some q else none
  | .arr es => coordArrLoop es

/-- The `장소` field after `str(...).strip()`, its JSON decoding abstracted:
`plain` is a non-bracketed string (possibly empty), `jsonList` a bracketed
valid JSON list (`none` stands for an element Python finds falsy, `some s`
for a truthy element with `str(loc) = s`), `jsonNonList` valid JSON that is
not a list, `broken` a bracketed string `json.loads` rejects (handled by
the manual strip/split path). -/
inductive PlaceRaw
  | plain (s : String)
  | jsonList (elems : List (Option String))
  | jsonNonList
  | broken (s : String)
deriving DecidableEq

/-- Python `str.strip('[]')`. -/
def stripBrackets (cs : List Char) : List Char :=
  ((cs.dropWhile (fun c => c = '[' || c = ']')).reverse.dropWhile
    (fun c => c = '[' || c = ']')).reverse

/-- The location-name decision of `_resolve_location_info` (lines 789-815):
the first non-blank place token wins; otherwise the `장소` column is
decoded; otherwise the name stays `알 수 없는 장소`. -/
def locationNameOf (places : List String) (locationRaw : PlaceRaw) : String :=
  if places ≠ [] then
    match places.find? (fun p => !(pyStripS p).isEmpty) with
    | some p => pyStripS p
    | none => "알 수 없는 장소"
  else
    match locationRaw with
    | .plain s => if s.isEmpty then "알 수 없는 장소" else s
    | .jsonList elems =>
      match elems.findSome?
          (fun o => o.bind (fun s => if (pyStripS s).isEmpty then none else some (pyStripS s))) with
      | some n => n
      | none => "알 수 없는 장소"
    | .jsonNonList => "알 수 없는 장소"
    | .broken s =>
      let cleaned := replaceAll ['\''] [] (replaceAll ['"'] [] (stripBrackets s.toList))
      let parts := ((cleaned.splitOn ',').map pyStrip).filter (fun p => p ≠ [])
      match parts with
      | p :: _ => String.mk p
      | [] => "알 수 없는 장소"

/-- A crawled row as `_resolve_location_info` reads it. -/
structure RowInput where
  placesOrig : List String
  locationRaw : PlaceRaw
  latRaw : CoordRaw
  lonRaw : CoordRaw

/-- The geocoding fallback of `_resolve_location_info` (lines 832-840): run
the multi-query geocoder only for a known name, and keep the default
civic-center coordinate unless both returned values are truthy. -/
def resolveViaGeo (geo : String → Option LocInfo) (name : String) : ℚ × ℚ :=
  if name ≠ "알 수 없는 장소" then
    match kakaoGeocodeMulti geo name with
    | (some la, some lo) =>
      if decide (la ≠ 0) && decide (lo ≠ 0) then (la, lo) else (37.5709, 126.9769)
    | _ => (37.5709, 126.9769)
  else (37.5709, 126.9769)

/-- `_resolve_location_info(row)`: the resolved `(location_name, latitude,
longitude)`.  Row-embedded coordinates that parse (with Python-truthy
values) take precedence; otherwise the geocoder; otherwise the fixed
default `(37.5709, 126.9769)`.  The function is total: a row is always
converted, never dropped here. -/
def resolveLocationInfo (geo : String → Option LocInfo) (row : RowInput) :
    String × ℚ × ℚ :=
  let name := locationNameOf row.placesOrig row.locationRaw
  match parseCoordinateValue row.latRaw, parseCoordinateValue row.lonRaw with
  | some la, some lo =>
    if decide (la ≠ 0) && decide (lo ≠ 0) then (name, la, lo)
    else (name, (resolveViaGeo geo name).1, (resolveViaGeo geo name).2)
  | _, _ => (name, (resolveViaGeo geo name).1, (resolveViaGeo geo name).2)


/-! ## Lemmas: coordinate parse and geocoder loop characterizations -/

theorem inKoreaRange_ne_zero {q : ℚ} (h : inKoreaRange q = true) : q ≠ 0 := by
  intro h0
  subst h0
  exact absurd h (by decide)

theorem coordArrLoop_spec :
    ∀ (es : List JElem) (v : ℚ),
      coordArrLoop es = some v ↔
        ∃ pre post, es = pre ++ JElem.num v :: post ∧ inKoreaRange v = true ∧
          ∀ e ∈ pre, e = JElem.null ∨ ∃ r, e = JElem.num r ∧ inKoreaRange r = false := by
  intro es
  induction es with
  | nil =>
    intro v
    constructor
    · intro h
      simp [coordArrLoop] at h
    · rintro ⟨pre, post, h, -, -⟩
      exact absurd h (by simp)
  | cons e rest ih =>
    intro v
    cases e with
    | null =>
      rw [show coordArrLoop (JElem.null :: rest) = coordArrLoop rest from rfl, ih v]
      constructor
      · rintro ⟨pre, post, hsplit, hv, hpre⟩
        refine ⟨JElem.null :: pre, post, by simp [hsplit], hv, ?_⟩
        intro x hx
        rcases List.mem_cons.mp hx with rfl | hx2
        · exact Or.inl rfl
        · exact hpre x hx2
      · rintro ⟨pre, post, hsplit, hv, hpre⟩
        cases pre with
        | nil => simp at hsplit
        | cons p pre2 =>
          rw [List.cons_append] at hsplit
          injection hsplit with hp hrest
          exact ⟨pre2, post, hrest, hv, fun x hx => hpre x (List.mem_cons_of_mem p hx)⟩
    | nonNumeric =>
      rw [show coordArrLoop (JElem.nonNumeric :: rest) = none from rfl]
      constructor
      · intro h; cases h
      · rintro ⟨pre, post, hsplit, hv, hpre⟩
        cases pre with
        | nil => simp at hsplit
        | cons p pre2 =>
          rw [List.cons_append] at hsplit
          injection hsplit with hp hrest
          rcases hpre p (by simp) with hnull | ⟨r, hnum, -⟩
          · rw [← hp] at hnull; cases hnull
          · rw [← hp] at hnum; cases hnum
    | num q =>
      rw [show coordArrLoop (JElem.num q :: rest) =
            (if inKoreaRange q then some q else coordArrLoop rest) from rfl]
      by_cases hq : inKoreaRange q = true
      · rw [if_pos hq]
        constructor
        · intro h
          injection h with h
          subst h
          exact ⟨[], rest, by simp, hq, by simp⟩
        · rintro ⟨pre, post, hsplit, hv, hpre⟩
          cases pre with
          | nil =>
            simp only [List.nil_append] at hsplit
            injection hsplit with hp hrest
            injection hp with hp
            rw [hp]
          | cons p pre2 =>
            rw [List.cons_append] at hsplit
            injection hsplit with hp hrest
            rcases hpre p (by simp) with hnull | ⟨r, hnum, hr⟩
            · rw [← hp] at hnull; cases hnull
            · rw [← hp] at hnum
              injection hnum with hqr
              rw [← hqr] at hr
              rw [hr] at hq
              cases hq
      · rw [if_neg hq, ih v]
        constructor
        · rintro ⟨pre, post, hsplit, hv, hpre⟩
          refine ⟨JElem.num q :: pre, post, by simp [hsplit], hv, ?_⟩
          intro x hx
          rcases List.mem_cons.mp hx with rfl | hx2
          · exact Or.inr ⟨q, rfl, by simpa using hq⟩
          · exact hpre x hx2
        · rintro ⟨pre, post, hsplit, hv, hpre⟩
          cases pre with
          | nil =>
            simp only [List.nil_append] at hsplit
            injection hsplit with hp hrest
            injection hp with hp
            rw [← hp] at hv
            exact absurd hv hq
          | cons p pre2 =>
            rw [List.cons_append] at hsplit
            injection hsplit with hp hrest
            exact ⟨pre2, post, hrest, hv, fun x hx => hpre x (List.mem_cons_of_mem p hx)⟩

theorem parseCoordinate_range :
    ∀ (x : CoordRaw) (v : ℚ), parseCoordinateValue x = some v → inKoreaRange v = true := by
  intro x v h
  cases x with
  | blank => cases h
  | nonNumericScalar => cases h
  | badJson => cases h
  | scalar q =>
    rw [show parseCoordinateValue (CoordRaw.scalar q) =
          (if inKoreaRange q then some q else none) from rfl] at h
    by_cases hq : inKoreaRange q = true
    · rw [if_pos hq] at h
      injection h with h
      rw [← h]
      exact hq
    · rw [if_neg hq] at h
      cases h
  | arr es =>
    obtain ⟨-, -, -, hv, -⟩ := (coordArrLoop_spec es v).mp h
    exact hv

/-- A candidate that yields no accepted result: the geocoder returns nothing
for it, or the home-region filter rejects its result. -/
def candidateRejected (geo : String → Option LocInfo) (q : String) : Prop :=
  geo q = none ∨ ∃ r, geo q = some r ∧ seoulAccepts r = false

theorem kakaoLoop_spec (geo : String → Option LocInfo) :
    ∀ (cs : List String) (la lo : ℚ),
      kakaoLoop geo cs = some (la, lo) ↔
        ∃ pre q post, cs = pre ++ q :: post ∧
          (∀ p ∈ pre, candidateSkipped p = true ∨ candidateRejected geo p) ∧
          candidateSkipped q = false ∧
          ∃ r, geo q = some r ∧ seoulAccepts r = true ∧ la = r.y ∧ lo = r.x := by
  intro cs
  induction cs with
  | nil =>
    intro la lo
    constructor
    · intro h; cases h
    · rintro ⟨pre, q, post, h, -⟩
      exact absurd h (by simp)
  | cons c rest ih =>
    intro la lo
    by_cases hskip : candidateSkipped c = true
    · rw [show kakaoLoop geo (c :: rest) =
            (if candidateSkipped c then kakaoLoop geo rest
             else match geo c with
               | some r => if seoulAccepts r then some (r.y, r.x) else kakaoLoop geo rest
               | none => kakaoLoop geo rest) from rfl, if_pos hskip, ih la lo]
      constructor
      · rintro ⟨pre, q, post, hsplit, hpre, hq, hr⟩
        refine ⟨c :: pre, q, post, by simp [hsplit], ?_, hq, hr⟩
        intro p hp
        rcases List.mem_cons.mp hp with rfl | hp2
        · exact Or.inl hskip
        · exact hpre p hp2
      · rintro ⟨pre, q, post, hsplit, hpre, hq, hr⟩
        cases pre with
        | nil =>
          simp only [List.nil_append] at hsplit
          injection hsplit with hp hrest
          rw [← hp] at hq
          rw [hskip] at hq
          cases hq
        | cons p pre2 =>
          rw [List.cons_append] at hsplit
          injection hsplit with hp hrest
          exact ⟨pre2, q, post, hrest, fun x hx => hpre x (List.mem_cons_of_mem p hx), hq, hr⟩
    · have hskip2 : candidateSkipped c = false := by
        cases hcb : candidateSkipped c
        · rfl
        · exact absurd hcb hskip
      rw [show kakaoLoop geo (c :: rest) =
            (if candidateSkipped c then kakaoLoop geo rest
             else match geo c with
               | some r => if seoulAccepts r then some (r.y, r.x) else kakaoLoop geo rest
               | none => kakaoLoop geo rest) from rfl, if_neg hskip]
      cases hg : geo c with
      | none =>
        rw [ih la lo]
        constructor
        · rintro ⟨pre, q, post, hsplit, hpre, hq, hr⟩
          refine ⟨c :: pre, q, post, by simp [hsplit], ?_, hq, hr⟩
          intro p hp
          rcases List.mem_cons.mp hp with rfl | hp2
          · exact Or.inr (Or.inl hg)
          · exact hpre p hp2
        · rintro ⟨pre, q, post, hsplit, hpre, hq, hr⟩
          cases pre with
          | nil =>
            simp only [List.nil_append] at hsplit
            injection hsplit with hp hrest
            obtain ⟨r, hr1, -⟩ := hr
            rw [← hp] at hr1
            rw [hg] at hr1
            cases hr1
          | cons p pre2 =>
            rw [List.cons_append] at hsplit
            injection hsplit with hp hrest
            exact ⟨pre2, q, post, hrest, fun x hx => hpre x (List.mem_cons_of_mem p hx), hq, hr⟩
      | some r =>
        dsimp only
        by_cases hacc : seoulAccepts r = true
        · rw [if_pos hacc]
          constructor
          · intro h
            injection h with h
            refine ⟨[], c, rest, by simp, by simp, hskip2,
              ⟨r, hg, hacc, ?_, ?_⟩⟩
            · exact (congrArg Prod.fst h).symm
            · exact (congrArg Prod.snd h).symm
          · rintro ⟨pre, q, post, hsplit, hpre, hq, hr⟩
            cases pre with
            | nil =>
              simp only [List.nil_append] at hsplit
              injection hsplit with hp hrest
              obtain ⟨r2, hr1, hr2, hla, hlo⟩ := hr
              rw [← hp] at hr1
              rw [hg] at hr1
              injection hr1 with hr1
              subst hr1
              rw [hla, hlo]
            | cons p pre2 =>
              rw [List.cons_append] at hsplit
              injection hsplit with hp hrest
              rcases hpre p (by simp) with hsk | hrej
              · rw [← hp] at hsk
                rw [hsk] at hskip2
                cases hskip2
              · rcases hrej with hnone | ⟨r2, hr1, hr2⟩
                · rw [← hp] at hnone
                  rw [hg] at hnone
                  cases hnone
                · rw [← hp] at hr1
                  rw [hg] at hr1
                  injection hr1 with hr1
                  subst hr1
                  rw [hr2] at hacc
                  cases hacc
        · have hacc2 : seoulAccepts r = false := by
            cases hcb : seoulAccepts r
            · rfl
            · exact absurd hcb hacc
          rw [if_neg hacc, ih la lo]
          constructor
          · rintro ⟨pre, q, post, hsplit, hpre, hq, hr⟩
            refine ⟨c :: pre, q, post, by simp [hsplit], ?_, hq, hr⟩
            intro p hp
            rcases List.mem_cons.mp hp with rfl | hp2
            · exact Or.inr (Or.inr ⟨r, hg, hacc2⟩)
            · exact hpre p hp2
          · rintro ⟨pre, q, post, hsplit, hpre, hq, hr⟩
            cases pre with
            | nil =>
              simp only [List.nil_append] at hsplit
              injection hsplit with hp hrest
              obtain ⟨r2, hr1, hr2, -, -⟩ := hr
              rw [← hp] at hr1
              rw [hg] at hr1
              injection hr1 with hr1
              subst hr1
              exact absurd hr2 hacc
            | cons p pre2 =>
              rw [List.cons_append] at hsplit
              injection hsplit with hp hrest
              exact ⟨pre2, q, post, hrest, fun x hx => hpre x (List.mem_cons_of_mem p hx), hq, hr⟩


/-! ## C8, C10 -/

/-- C8 (amended): the geocoder builds the ranked candidate list in the
claimed order; a query is skipped when fewer than two characters remain
after removing every occurrence of `서울` (not only a leading city prefix)
and stripping; the result is the `(y, x)` of the first non-skipped
candidate whose lookup returns a result passing the home-region filter
(an address that is empty, or contains `서울` within its first five
characters), all earlier candidates having been skipped or rejected; and a
row without usable embedded coordinates whose geocoding yields nothing is
resolved to the fixed default coordinate `(37.5709, 126.9769)` rather than
dropped. -/
theorem geoResolver_ranked_first_accept (geo : String → Option LocInfo)
    (place : String) (la lo : ℚ) (row : RowInput) :
    (rankedCandidates (normalizePlaceName place) =
        ["서울 " ++ normalizePlaceName place, normalizePlaceName place] ++
        (if ((pySplitWs (normalizePlaceName place).toList.length
                (normalizePlaceName place).toList).map String.mk).length > 1 then
          ["서울 " ++ ((pySplitWs (normalizePlaceName place).toList.length
                (normalizePlaceName place).toList).map String.mk).getLastD "",
           "서울 " ++ ((pySplitWs (normalizePlaceName place).toList.length
                (normalizePlaceName place).toList).map String.mk).headD ""]
        else []) ++
        (if !(pyEndsWith (normalizePlaceName place) "역") &&
            (normalizePlaceName place).length ≤ 5 then
          ["서울 " ++ normalizePlaceName place ++ "역"]
        else [])) ∧
    (kakaoGeocodeMulti geo place = (some la, some lo) ↔
      2 ≤ (normalizePlaceName place).length ∧
        ∃ pre q post, rankedCandidates (normalizePlaceName place) = pre ++ q :: post ∧
          (∀ p ∈ pre, candidateSkipped p = true ∨ candidateRejected geo p) ∧
          candidateSkipped q = false ∧
          ∃ r, geo q = some r ∧ seoulAccepts r = true ∧ la = r.y ∧ lo = r.x) ∧
    ((parseCoordinateValue row.latRaw = none ∨ parseCoordinateValue row.lonRaw = none) →
      kakaoGeocodeMulti geo (locationNameOf row.placesOrig row.locationRaw) = (none, none) →
      resolveLocationInfo geo row =
        (locationNameOf row.placesOrig row.locationRaw, 37.5709, 126.9769)) := by
  generalize hc : normalizePlaceName place = clean
  refine ⟨?_, ?_, ?_⟩
  · simp only [rankedCandidates]
    by_cases h2 : (!(pyEndsWith clean "역") && decide (clean.length ≤ 5)) = true
    · rw [if_pos h2, if_pos h2]
      by_cases h1 : ((pySplitWs clean.toList.length clean.toList).map String.mk).length > 1
      · rw [if_pos h1, if_pos h1]
        try simp
      · rw [if_neg h1, if_neg h1]
        try simp
    · rw [if_neg h2, if_neg h2]
      by_cases h1 : ((pySplitWs clean.toList.length clean.toList).map String.mk).length > 1
      · rw [if_pos h1, if_pos h1]
        try simp
      · rw [if_neg h1, if_neg h1]
        try simp
  · simp only [kakaoGeocodeMulti]
    rw [hc]
    by_cases hlen : clean.length < 2
    · rw [if_pos hlen]
      constructor
      · intro h
        injection h with h1 h2
        cases h1
      · rintro ⟨hge, -⟩
        omega
    · rw [if_neg hlen]
      have hge : 2 ≤ clean.length := by omega
      cases hk : kakaoLoop geo (rankedCandidates clean) with
      | none =>
        try dsimp only
        constructor
        · intro h
          injection h with h1 h2
          cases h1
        · rintro ⟨-, hex⟩
          have hl := (kakaoLoop_spec geo (rankedCandidates clean) la lo).mpr hex
          rw [hk] at hl
          cases hl
      | some yx =>
        try dsimp only
        constructor
        · intro h
          injection h with h1 h2
          injection h1 with h1
          injection h2 with h2
          refine ⟨hge, ?_⟩
          have hl : kakaoLoop geo (rankedCandidates clean) = some (la, lo) := by
            rw [hk, ← h1, ← h2]
          exact (kakaoLoop_spec geo _ la lo).mp hl
        · rintro ⟨-, hex⟩
          have hl := (kakaoLoop_spec geo (rankedCandidates clean) la lo).mpr hex
          rw [hk] at hl
          injection hl with h1
          rw [h1]
  · intro hnone hk
    unfold resolveLocationInfo
    have hgeo : resolveViaGeo geo (locationNameOf row.placesOrig row.locationRaw) =
        (37.5709, 126.9769) := by
      unfold resolveViaGeo
      by_cases hname : locationNameOf row.placesOrig row.locationRaw = "알 수 없는 장소"
      · rw [if_neg (by simpa using hname)]
      · rw [if_pos (by simpa using hname), hk]
    rcases hnone with h | h
    · rw [h]
      cases parseCoordinateValue row.lonRaw <;> simp [hgeo]
    · rw [h]
      cases parseCoordinateValue row.latRaw <;> simp [hgeo]

/-- The geocoder of the C8 counterexample: it answers both the doubled
query `서울 서울역` and the bare `서울역` with in-region results. -/
def geoCexOracle : String → Option LocInfo := fun q =>
  if q = "서울 서울역" then some ⟨"서울 중구 봉래동2가", 127, 37⟩
  else if q = "서울역" then some ⟨"서울 용산구 동자동", 126, 38⟩
  else none

/-- C8 counterexample: for the place `서울역` the first candidate
`서울 서울역` keeps three characters (`서울역`) after stripping the city
prefix `서울 `, and the oracle answers it with a result the home-region
filter accepts — by the claim it would be issued and accepted — yet
`_kakao_geocode_multi` returns `(None, None)`: the skip rule removes every
occurrence of `서울`, so both candidates are skipped and no query is ever
issued. -/
theorem geoResolver_skip_rule_cex :
    normalizePlaceName "서울역" = "서울역" ∧
    rankedCandidates "서울역" = ["서울 서울역", "서울역"] ∧
    pyStripS (String.mk ("서울 서울역".toList.drop 3)) = "서울역" ∧
    geoCexOracle "서울 서울역" = some ⟨"서울 중구 봉래동2가", 127, 37⟩ ∧
    seoulAccepts ⟨"서울 중구 봉래동2가", 127, 37⟩ = true ∧
    kakaoGeocodeMulti geoCexOracle "서울역" = (none, none) :=
  ⟨by decide, by decide, by decide, by decide, by decide, by decide⟩

/-- C10 (amended): the scalar branch of `_parse_coordinate_value` accepts a
value exactly when it lies in `[33, 39] ∪ [124, 132]`; the array branch
returns the first element that is a number inside that union, skipping
nulls and out-of-range numbers before it (not merely testing the first
non-null element); the identical test serves both axes; and a row both of
whose fields parse is resolved from them alone — the geocoder is never
consulted and cannot change the result. -/
theorem parseCoordinate_first_in_range (q v : ℚ) (es : List JElem)
    (geo geo2 : String → Option LocInfo) (row : RowInput) (la lo : ℚ) :
    (parseCoordinateValue (CoordRaw.scalar q) = some q ↔ inKoreaRange q = true) ∧
    (parseCoordinateValue (CoordRaw.scalar q) = none ↔ inKoreaRange q = false) ∧
    (parseCoordinateValue (CoordRaw.arr es) = some v ↔
      ∃ pre post, es = pre ++ JElem.num v :: post ∧ inKoreaRange v = true ∧
        ∀ e ∈ pre, e = JElem.null ∨ ∃ r, e = JElem.num r ∧ inKoreaRange r = false) ∧
    (parseCoordinateValue row.latRaw = some la →
      parseCoordinateValue row.lonRaw = some lo →
      resolveLocationInfo geo row =
          (locationNameOf row.placesOrig row.locationRaw, la, lo) ∧
        resolveLocationInfo geo row = resolveLocationInfo geo2 row) := by
  refine ⟨?_, ?_, ?_, ?_⟩
  · rw [show parseCoordinateValue (CoordRaw.scalar q) =
        (if inKoreaRange q then some q else none) from rfl]
    by_cases hq : inKoreaRange q = true
    · rw [if_pos hq]
      exact ⟨fun _ => hq, fun _ => rfl⟩
    · rw [if_neg hq]
      exact ⟨fun h => absurd h (by simp), fun h => absurd h hq⟩
  · rw [show parseCoordinateValue (CoordRaw.scalar q) =
        (if inKoreaRange q then some q else none) from rfl]
    by_cases hq : inKoreaRange q = true
    · rw [if_pos hq]
      refine ⟨fun h => absurd h (by simp), fun h => ?_⟩
      rw [hq] at h
      cases h
    · have hq2 : inKoreaRange q = false := by simpa using hq
      rw [if_neg hq]
      exact ⟨fun _ => hq2, fun _ => rfl⟩
  · exact coordArrLoop_spec es v
  · intro hla hlo
    have hra : inKoreaRange la = true := parseCoordinate_range _ _ hla
    have hrb : inKoreaRange lo = true := parseCoordinate_range _ _ hlo
    have hz : (decide (la ≠ 0) && decide (lo ≠ 0)) = true := by
      rw [decide_eq_true (inKoreaRange_ne_zero hra),
        decide_eq_true (inKoreaRange_ne_zero hrb)]
      rfl
    constructor
    · unfold resolveLocationInfo
      rw [hla, hlo]
      dsimp only
      rw [if_pos hz]
    · unfold resolveLocationInfo
      rw [hla, hlo]
      dsimp only
      rw [if_pos hz, if_pos hz]

/-- C10 counterexample: for the JSON array `[1, 37]` the first non-null
element `1` lies in neither interval, so by the claim the parser returns
`None`; the code keeps scanning and accepts the later element `37`. -/
theorem parseCoordinate_first_nonnull_cex :
    parseCoordinateValue (CoordRaw.arr [JElem.num 1, JElem.num 37]) = some 37 ∧
    inKoreaRange 1 = false :=
  ⟨by decide, by decide⟩


/-! ## BulletinParser (`_parse_pdf` and helpers, crawling_service.py
lines 487-602) -/

/-- Exactly `k` digits (`\d{k}`): the digits and the remainder. -/
def takeExactDigits : Nat → List Char → Option (List Char × List Char)
  | 0, cs => some ([], cs)
  | _ + 1, [] => none
  | k + 1, c :: rest =>
    if c.isDigit then
      (takeExactDigits k rest).map (fun pr => (c :: pr.1, pr.2))
    else none

/-- After the hour digits of a clock token: `\s*:\s*\d{2}` (the consumed
characters and the remainder).  The greedy `\s*` needs no backtracking: a
shorter run would stop at a whitespace character, never at `:`. -/
def matchClockTail (cs : List Char) : Option (List Char × List Char) :=
  let ws1 := cs.takeWhile isPySpace
  match cs.dropWhile isPySpace with
  | ':' :: r1 =>
    let ws2 := r1.takeWhile isPySpace
    match takeExactDigits 2 (r1.dropWhile isPySpace) with
    | some (ds, r2) => some (ws1 ++ ':' :: (ws2 ++ ds), r2)
    | none => none
  | _ => none

/-- One clock token `\d{1,2}\s*:\s*\d{2}`: the hour width is greedy (two
digits first) and backtracks to one digit when the tail fails. -/
def matchClock : List Char → Option (List Char × List Char)
  | c1 :: c2 :: rest =>
    if c1.isDigit && c2.isDigit then
      match matchClockTail rest with
      | some (tl, r) => some (c1 :: c2 :: tl, r)
      | none =>
        match matchClockTail (c2 :: rest) with
        | some (tl, r) => some (c1 :: tl, r)
        | none => none
    else if c1.isDigit then
      (matchClockTail (c2 :: rest)).map (fun pr => (c1 :: pr.1, pr.2))
    else none
  | _ => none

/-- `TIME_RE` (`(?P<start>\d{1,2}\s*:\s*\d{2})\s*~\s*(?P<end>...)`) at one
position: the two captured groups and the remainder after the match. -/
def matchTimeRangeAt (cs : List Char) : Option (List Char × List Char × List Char) :=
  match matchClock cs with
  | none => none
  | some (g1, r1) =>
    match r1.dropWhile isPySpace with
    | '~' :: r2 =>
      match matchClock (r2.dropWhile isPySpace) with
      | some (g2, r3) => some (g1, g2, r3)
      | none => none
    | _ => none

/-- `TIME_RE.finditer(text)`: non-overlapping leftmost matches; for each,
its start and end index and the two clock groups. -/
def timeFinditer : Nat → List Char → Nat → List (Nat × Nat × List Char × List Char)
  | 0, _, _ => []
  | _, [], _ => []
  | fuel + 1, c :: rest, pos =>
    match matchTimeRangeAt (c :: rest) with
    | some (g1, g2, r3) =>
      let len := (c :: rest).length - r3.length
      (pos, pos + len, g1, g2) :: timeFinditer fuel r3 (pos + len)
    | none => timeFinditer fuel rest (pos + 1)

/-- `re.sub(r'(\d{1,2})\s*\n\s*:\s*(\d{2})', r'\1:\2', t)` at one position:
the whitespace between the hour digits and the colon must contain a
newline; the replacement drops it. -/
def matchBreakColonAt (cs : List Char) : Option (List Char × List Char) :=
  let tryFrom : List Char × List Char → Option (List Char × List Char) := fun pr =>
    let ws := pr.2.takeWhile isPySpace
    if ws.contains '\n' then
      match pr.2.dropWhile isPySpace with
      | ':' :: r2 =>
        match takeExactDigits 2 (r2.dropWhile isPySpace) with
        | some (ds2, r3) => some (pr.1 ++ ':' :: ds2, r3)
        | none => none
      | _ => none
    else none
  match takeExactDigits 2 cs with
  | some pr =>
    match tryFrom pr with
    | some out => some out
    | none =>
      match takeExactDigits 1 cs with
      | some pr1 => tryFrom pr1
      | none => none
  | none =>
    match takeExactDigits 1 cs with
    | some pr1 => tryFrom pr1
    | none => none

/-- `re.sub(r'(\d{1,2}\s*:\s*\d{2})\s*\n\s*~\s*\n\s*(\d{1,2}\s*:\s*\d{2})',
r'\1~\2', t)` at one position: a newline is required on each side of the
tilde. -/
def matchBreakTildeAt (cs : List Char) : Option (List Char × List Char) :=
  match matchClock cs with
  | some (g1, r1) =>
    if (r1.takeWhile isPySpace).contains '\n' then
      match r1.dropWhile isPySpace with
      | '~' :: r2 =>
        if (r2.takeWhile isPySpace).contains '\n' then
          match matchClock (r2.dropWhile isPySpace) with
          | some (g2, r3) => some (g1 ++ '~' :: g2, r3)
          | none => none
        else none
      | _ => none
    else none
  | none => none

/-- `_normalize_time_breaks(text)`: the two substitutions in source order. -/
def normalizeTimeBreaks (cs : List Char) : List Char :=
  let t := scanSub matchBreakColonAt cs.length cs
  scanSub matchBreakTildeAt t.length t

/-- `re.sub(r'<[^>]+>', ' ', s)` / `re.findall(r'<([^>]+)>', s)` at one
position: the non-empty tag body and the remainder after `>`. -/
def matchAngleTagAt (cs : List Char) : Option (List Char × List Char) :=
  match cs with
  | '<' :: r =>
    let body := r.takeWhile (fun c => !(c = '>'))
    if body.isEmpty then none
    else
      match r.dropWhile (fun c => !(c = '>')) with
      | '>' :: r2 => some (body, r2)
      | _ => none
  | _ => none

/-- `re.findall(r'<([^>]+)>', s)`: the tag bodies, in order. -/
def findAngleContents : Nat → List Char → List (List Char)
  | 0, _ => []
  | _, [] => []
  | fuel + 1, c :: rest =>
    match matchAngleTagAt (c :: rest) with
    | some (body, r2) => body :: findAngleContents fuel r2
    | none => findAngleContents fuel rest

def isArrowSep (c : Char) : Bool := c = '→' || c = '↔' || c = '~'

/-- `re.split(r'\s*(?:→|↔|~)\s*', s)`: a separator (with surrounding
whitespace) splits; text between separators accumulates. -/
def splitArrowAux : Nat → List Char → List Char → List (List Char)
  | 0, acc, cs => [acc ++ cs]
  | _, acc, [] => [acc]
  | fuel + 1, acc, c :: rest =>
    match (c :: rest).dropWhile isPySpace with
    | d :: r2 =>
      if isArrowSep d then acc :: splitArrowAux fuel [] (r2.dropWhile isPySpace)
      else splitArrowAux fuel (acc ++ [c]) rest
    | [] => [acc ++ (c :: rest)]

/-- `_extract_place_nodes(place_text)`: drop `<...>` asides, collapse
whitespace, split on the route separators, keep the non-empty stripped
parts. -/
def extractPlaceNodes (placeText : List Char) : List String :=
  let clean := scanSub (fun cs => (matchAngleTagAt cs).map (fun pr => ([' '], pr.2)))
    placeText.length placeText
  let clean := pyStrip (collapseWs clean.length clean)
  (((splitArrowAux clean.length [] clean).map pyStrip).filter (fun p => p ≠ [])).map String.mk

/-- The numeric value of a digits-and-commas headcount string
(`int(num.replace(',', ''))`). -/
def numValue (num : List Char) : Nat :=
  (num.filter (fun c => !(c = ','))).foldl (fun n c => n * 10 + (c.toNat - '0'.toNat)) 0

/-- The candidates for `\d{1,3}` at the head of a block, greedy order. -/
def headDigitCandidates (cs : List Char) : List (List Char × List Char) :=
  (takeExactDigits 3 cs).toList ++ (takeExactDigits 2 cs).toList ++
    (takeExactDigits 1 cs).toList

/-- The candidates for `(?:,\d{3})*`, greedy order (longest first). -/
def commaGroupCandidates : Nat → List Char → List (List Char × List Char)
  | 0, cs => [([], cs)]
  | fuel + 1, cs =>
    match cs with
    | ',' :: r1 =>
      match takeExactDigits 3 r1 with
      | some (ds, r2) =>
        ((commaGroupCandidates fuel r2).map
          (fun pr => (',' :: (ds ++ pr.1), pr.2))) ++ [([], cs)]
      | none => [([], cs)]
    | _ => [([], cs)]

/-- `(\d{1,3}(?:,\d{3})*)\s*명` at one position: the captured number and
the total match length (backtracking over both quantifiers). -/
def matchHeadcountAt (cs : List Char) : Option (List Char × Nat) :=
  (headDigitCandidates cs).findSome? fun pr =>
    (commaGroupCandidates pr.2.length pr.2).findSome? fun pr2 =>
      let r3 := pr2.2.dropWhile isPySpace
      match r3 with
      | '명' :: _ =>
        some (pr.1 ++ pr2.1, (cs.length - pr2.2.length) + (pr2.2.length - r3.length) + 1)
      | _ => none

/-- `re.search` for the pattern above: the number and its span `(h_s, h_e)`
within the block. -/
def searchHeadcount : Nat → List Char → Nat → Option (List Char × Nat × Nat)
  | 0, _, _ => none
  | _, [], _ => none
  | fuel + 1, c :: rest, pos =>
    match matchHeadcountAt (c :: rest) with
    | some (num, len) => some (num, pos, pos + len)
    | none => searchHeadcount fuel rest (pos + 1)

/-- One match of the fallback pattern `(\d{1,3}(?:,\d{3})*|\d{3,})` at one
position: the left alternative is preferred; the right one (`\d{3,}`) is
reachable only when the left fails, which a digit run never lets happen. -/
def matchNumAt (cs : List Char) : Option (List Char) :=
  match headDigitCandidates cs with
  | pr :: _ =>
    match (commaGroupCandidates pr.2.length pr.2).head? with
    | some pr2 => some (pr.1 ++ pr2.1)
    | none => some pr.1
  | [] =>
    let ds := cs.takeWhile Char.isDigit
    if ds.length ≥ 3 then some ds else none

/-- The fallback loop of `_extract_headcount`: iterate the matches,
skipping one whose next character is `出` (exit-number guard) or whose
value is below 100 without a thousands separator. -/
def searchNumFallback : Nat → List Char → Nat → Option (List Char × Nat × Nat)
  | 0, _, _ => none
  | _, [], _ => none
  | fuel + 1, c :: rest, pos =>
    match matchNumAt (c :: rest) with
    | some num =>
      let after := (c :: rest).drop num.length
      if after.head? = some '出' then
        searchNumFallback fuel after (pos + num.length)
      else if numValue num ≥ 100 || num.contains ',' then
        some (num, pos, pos + num.length)
      else
        searchNumFallback fuel after (pos + num.length)
    | none => searchNumFallback fuel rest (pos + 1)

/-- `_extract_headcount(block)`: the headcount string and its span, or
nothing. -/
def extractHeadcount (block : List Char) : Option (List Char × Nat × Nat) :=
  match searchHeadcount block.length block 0 with
  | some r => some r
  | none => searchNumFallback block.length block 0

/-- `_collapse_korean_gaps(s)`: join the whitespace-split tokens with
single spaces; a token that is 2-5 Hangul syllables once interior spaces
are removed is replaced by that spaceless core (`str.split()` tokens never
contain spaces, so the check is an identity — kept for faithfulness). -/
def fixToken (tok : List Char) : List Char :=
  let core := tok.filter (fun c => !(c = ' '))
  if core.all (fun c => 0xAC00 ≤ c.toNat && c.toNat ≤ 0xD7A3) && !core.isEmpty &&
      2 ≤ core.length && core.length ≤ 5 then
    core
  else tok

def collapseKoreanGaps (cs : List Char) : List Char :=
  joinSpace ((pySplitWs cs.length cs).map fixToken)

/-- `json.dumps(nodes, ensure_ascii=False)` for a list of strings that
contain no quote, backslash or control character (true of place nodes). -/
def jsonDumpsList (xs : List String) : String :=
  "[" ++ joinComma (xs.map (fun s => "\"" ++ s ++ "\"")) ++ "]"
where
  joinComma : List String → String
    | [] => ""
    | [p] => p
    | p :: rest => p ++ ", " ++ joinComma rest

/-- One parsed timeslot of `_parse_pdf`.  `placeNodes` is the abstract
`place_tokens` view of the `장소` column (the spec's RawEventRow); the
`위도`/`경도` columns are the constant `"[]"` and are omitted. -/
structure RawRow where
  year : String
  month : String
  day : String
  startTime : String
  endTime : String
  place : String
  placeNodes : List String
  headcount : String
  remark : String
deriving DecidableEq

/-- The per-match body of `_parse_pdf`'s loop: split the chunk at the
headcount span, extract the `<...>` asides and the place nodes, and
assemble the row. -/
def buildRow (ymd : String × String × String) (g1 g2 : List Char)
    (chunk : List Char) : RawRow :=
  let startT := String.mk (g1.filter (fun c => !isPySpace c))
  let endT := String.mk (g2.filter (fun c => !isPySpace c))
  let headSplit :=
    match extractHeadcount chunk with
    | some (num, s, e) => (num.filter (fun c => !(c = ',')), chunk.take s, chunk.drop e)
    | none => ([], chunk, [])
  let placeBlock := pyStrip headSplit.2.1
  let auxJoined := joinSpace (findAngleContents placeBlock.length placeBlock)
  let nodes := extractPlaceNodes placeBlock
  let remarkRaw := joinSpace
    (([pyStrip headSplit.2.2, pyStrip auxJoined].filter (fun x => x ≠ [])))
  let remark := pyStrip (collapseKoreanGaps (collapseWs remarkRaw.length remarkRaw))
  let placeCol :=
    match nodes with
    | [] => ""
    | [n] => n
    | _ => jsonDumpsList nodes
  { year := ymd.1, month := ymd.2.1, day := ymd.2.2,
    startTime := startT, endTime := endT, place := placeCol,
    placeNodes := nodes, headcount := String.mk headSplit.1,
    remark := String.mk remark }

/-- The chunking of `_parse_pdf`: timeslot `i`'s detail text runs from its
match end to match `i+1`'s start (or the end of the text). -/
def chunkRows (t : List Char) : List (Nat × Nat × List Char × List Char) →
    List (List Char × List Char × List Char)
  | [] => []
  | m :: rest =>
    let stop :=
      match rest with
      | m2 :: _ => m2.1
      | [] => t.length
    (m.2.2.1, m.2.2.2, pyStrip ((t.drop m.2.1).take (stop - m.2.1))) :: chunkRows t rest

/-- `_parse_pdf`, with the pdfminer text extraction abstracted: the
function takes the extracted text blob and the `(YYYY, MM, DD)` triple
read from the post title. -/
def parsePdfText (text : String) (ymd : String × String × String) : List RawRow :=
  let t := normalizeTimeBreaks text.toList
  (chunkRows t (timeFinditer t.length t 0)).map (fun x => buildRow ymd x.1 x.2.1 x.2.2)

/-! ## C5 -/

/-- C5: end-to-end scenario A.  Parsing the PDF text
`"09:00~18:00 광화문→시청 500명"` yields exactly one raw event row for the
timeslot, with `start_time = "09:00"`, `end_time = "18:00"`, place tokens
`["광화문", "시청"]` (the `장소` column carrying their JSON form),
headcount `"500"` and an empty remark. -/
theorem parsePdf_scenarioA :
    parsePdfText "09:00~18:00 광화문→시청 500명" ("2025", "08", "15") =
      [{ year := "2025", month := "08", day := "15", startTime := "09:00",
         endTime := "18:00", place := "[\"광화문\", \"시청\"]",
         placeNodes := ["광화문", "시청"], headcount := "500", remark := "" }] := by
  decide


/-! ## BulletinFetcher (`_get_today_post_info`, `_parse_goBoardView`,
`_build_view_urls`, crawling_service.py lines 300-373) -/

/-- An anchor of the board's list page, as the scan sees it: its resolved
title text (`a.get_text(strip=True)` with the parent-`td` fallback) and its
`href`.  The CSS selection of the `goBoardView` anchors is abstracted into
the input list. -/
structure Anchor where
  title : String
  href : String
deriving DecidableEq

/-- The title test of the selection loop:
`expected_full in title or f"오늘의 집회 {current_date}" in title`, where
`expected_full = f"오늘의 집회 {current_date} {current_day}"`. -/
def titleMatches (currentDate currentDay title : String) : Bool :=
  containsSubS title ("오늘의 집회 " ++ currentDate ++ " " ++ currentDay) ||
  containsSubS title ("오늘의 집회 " ++ currentDate)

/-- `goBoardView\('([^']+)'\s*,\s*'([^']+)'\s*,\s*'(\d+)'\)` at one
position (`[^']+` is the run up to the next quote; `\d+` is the maximal
digit run, which must be followed by the closing quote). -/
def matchGoBoardViewAt (cs : List Char) : Option (String × String × String) :=
  match dropLit "goBoardView('".toList cs with
  | none => none
  | some r1 =>
    match quotedRun r1 with
    | none => none
    | some (g1, r2) =>
      match comma r2 with
      | none => none
      | some r3 =>
        match quotedRun r3 with
        | none => none
        | some (g2, r4) =>
          match comma r4 with
          | none => none
          | some r5 =>
            let ds := r5.takeWhile Char.isDigit
            if ds.isEmpty then none
            else
              match r5.dropWhile Char.isDigit with
              | '\'' :: ')' :: _ => some (String.mk g1, String.mk g2, String.mk ds)
              | _ => none
where
  dropLit : List Char → List Char → Option (List Char)
    | [], cs => some cs
    | _ :: _, [] => none
    | l :: ls, c :: cs => if c = l then dropLit ls cs else none
  quotedRun (cs : List Char) : Option (List Char × List Char) :=
    let body := cs.takeWhile (fun c => !(c = '\''))
    if body.isEmpty then none
    else
      match cs.dropWhile (fun c => !(c = '\'')) with
      | '\'' :: r => some (body, r)
      | _ => none
  comma (cs : List Char) : Option (List Char) :=
    match cs.dropWhile isPySpace with
    | ',' :: r =>
      match r.dropWhile isPySpace with
      | '\'' :: r2 => some r2
      | _ => none
    | _ => none

/-- `_parse_goBoardView(href)`: `re.search`, so the pattern may start
anywhere in the string. -/
def parseGoBoardView : List Char → Option (String × String × String)
  | [] => none
  | c :: rest =>
    match matchGoBoardViewAt (c :: rest) with
    | some out => some out
    | none => parseGoBoardView rest

/-- `_build_view_urls(board_no)`: the two candidate view-URL shapes. -/
def buildViewUrls (boardNo : String) : List String :=
  ["https://www.smpa.go.kr/user/nd54882.do?View&boardNo=" ++ boardNo,
   "https://www.smpa.go.kr/user/nd54882.do?dmlType=View&boardNo=" ++ boardNo]

/-- How a `_get_today_post_info` call ends. -/
inductive FetchOutcome
  /-- `RuntimeError("오늘 날짜 게시글을 찾지 못했습니다.")`. -/
  | bulletinNotFound
  /-- `RuntimeError("goBoardView 인자를 파싱하지 못했습니다.")`. -/
  | goBoardViewParseFailed
  /-- `NameError`: the view-URL loop body reads `resp = session.get(url,
  timeout=20)` (line 370), but no `session` is defined anywhere in the
  module — the surrounding function's HTTP handle is named `client`.  The
  first loop iteration raises before any request is made. -/
  | nameErrorSession
  /-- `RuntimeError("View 페이지 요청에 실패했습니다.")` — reachable only if
  the view-URL list were empty, which `_build_view_urls` never produces. -/
  | viewRequestFailed
  /-- The documented success: the view URL and the post title. -/
  | ok (viewUrl : String) (title : String)
deriving DecidableEq

/-- `_get_today_post_info`, over the scanned anchors and today's date
pattern pieces.  The success constructor is never produced: after the
duplicate-free selection and `goBoardView` parsing succeed, the view-URL
loop's first iteration raises `NameError` on the undefined `session`. -/
def getTodayPostInfo (anchors : List Anchor) (currentDate currentDay : String) :
    FetchOutcome :=
  match anchors.find? (fun a => titleMatches currentDate currentDay a.title) with
  | none => .bulletinNotFound
  | some a =>
    match parseGoBoardView a.href.toList with
    | none => .goBoardViewParseFailed
    | some parsed =>
      match buildViewUrls parsed.2.2 with
      | [] => .viewRequestFailed
      | _ :: _ => .nameErrorSession



/-! ## C4 -/

/-- C4: the bulletin-not-found error (`오늘 날짜 게시글을 찾지 못했습니다`)
is raised iff no anchor's title contains today's `오늘의 집회 YYMMDD`
pattern (the full pattern with the weekday is a superstring of the
date-only one, so the date-only substring test decides the disjunction).
The claim's success path, however, never happens: for a list page with a
matching anchor and a parseable `goBoardView` href, the function raises
`NameError` on the undefined name `session` (crawling_service.py line 370)
instead of probing the two candidate view URLs and returning one with the
post title. -/
theorem getTodayPostInfo_notFound_iff_nameError :
    (∀ (anchors : List Anchor) (d w : String),
      getTodayPostInfo anchors d w = FetchOutcome.bulletinNotFound ↔
        ∀ a ∈ anchors, titleMatches d w a.title = false) ∧
    (∀ (anchors : List Anchor) (d w : String) (u t : String),
      getTodayPostInfo anchors d w ≠ FetchOutcome.ok u t) ∧
    getTodayPostInfo
        [⟨"오늘의 집회 251012 일", "javascript:goBoardView('/bbs/B01','nd54882','12345')"⟩]
        "251012" "일" =
      FetchOutcome.nameErrorSession := by
  refine ⟨?_, ?_, by decide⟩
  · intro anchors d w
    unfold getTodayPostInfo
    cases hf : anchors.find? (fun a => titleMatches d w a.title) with
    | none =>
      constructor
      · intro _ a ha
        have h2 := List.find?_eq_none.mp hf a ha
        simpa using h2
      · intro _
        rfl
    | some a =>
      have hmem := List.mem_of_find?_eq_some hf
      have htrue := List.find?_some hf
      constructor
      · intro h
        exfalso
        dsimp only at h
        cases hp : parseGoBoardView a.href.toList with
        | none =>
          rw [hp] at h
          cases h
        | some parsed =>
          rw [hp] at h
          dsimp only [buildViewUrls] at h
          cases h
      · intro hall
        have hfalse := hall a hmem
        rw [htrue] at hfalse
        cases hfalse
  · intro anchors d w u t
    unfold getTodayPostInfo
    cases hf : anchors.find? (fun a => titleMatches d w a.title) with
    | none => intro h; cases h
    | some a =>
      dsimp only
      cases hp : parseGoBoardView a.href.toList with
      | none => intro h; cases h
      | some parsed =>
        dsimp only [buildViewUrls]
        intro h
        cases h


/-! ## RouteMatcher (`geo_utils.py` lines 12-105): Python floats idealized
as real numbers -/

/-- `math.atan2(y, x)`. -/
noncomputable def atan2 (y x : ℝ) : ℝ :=
  if 0 < x then Real.arctan (y / x)
  else if x < 0 ∧ 0 ≤ y then Real.arctan (y / x) + Real.pi
  else if x < 0 then Real.arctan (y / x) - Real.pi
  else if 0 < y then Real.pi / 2
  else if y < 0 then -(Real.pi / 2)
  else 0

/-- `math.radians(x)`. -/
noncomputable def radians (x : ℝ) : ℝ := x * Real.pi / 180

/-- `haversine_distance(lat1, lon1, lat2, lon2)` (geo_utils.py lines
12-42).  `math.sqrt` of a negative argument would raise in Python where
`Real.sqrt` clamps to 0; for the coordinates the pipeline feeds in,
`0 ≤ a ≤ 1`, where the two agree. -/
noncomputable def haversineDistance (lat1 lon1 lat2 lon2 : ℝ) : ℝ :=
  let r : ℝ := 6371000
  let lat1r := radians lat1
  let lat2r := radians lat2
  let dlat := radians lat2 - radians lat1
  let dlon := radians lon2 - radians lon1
  let a := Real.sin (dlat / 2) ^ 2 +
    Real.cos lat1r * Real.cos lat2r * Real.sin (dlon / 2) ^ 2
  let c := 2 * atan2 (Real.sqrt a) (Real.sqrt (1 - a))
  r * c

theorem atan2_zero_one : atan2 0 1 = 0 := by
  unfold atan2
  rw [if_pos one_pos]
  simp

/-- The haversine distance from a point to itself is zero. -/
theorem haversineDistance_self (lat lon : ℝ) :
    haversineDistance lat lon lat lon = 0 := by
  unfold haversineDistance
  simp [atan2_zero_one]

/-- `is_event_near_route_accurate(route_coordinates, event_lat, event_lon,
threshold_meters)` (lines 81-105): the early-`return` scan over the
vertices is `List.any`; the empty polyline yields `False`. -/
noncomputable def isEventNearRouteAccurate (routeCoordinates : List (ℝ × ℝ))
    (eventLat eventLon thresholdMeters : ℝ) : Bool :=
  routeCoordinates.any fun p =>
    decide (haversineDistance p.1 p.2 eventLat eventLon ≤ thresholdMeters)

/-- `is_point_near_route(start_lat, start_lon, end_lat, end_lon, point_lat,
point_lon, threshold_meters)` (lines 45-78). -/
noncomputable def isPointNearRoute (startLat startLon endLat endLon
    pointLat pointLon thresholdMeters : ℝ) : Bool :=
  let distToStart := haversineDistance startLat startLon pointLat pointLon
  let distToEnd := haversineDistance endLat endLon pointLat pointLon
  let routeDistance := haversineDistance startLat startLon endLat endLon
  let totalDistance := distToStart + distToEnd
  if |totalDistance - routeDistance| ≤ thresholdMeters then true
  else if distToStart ≤ thresholdMeters ∨ distToEnd ≤ thresholdMeters then true
  else false

/-! ## C6, C7 -/

/-- C6: the polyline matcher returns true iff some vertex of the polyline
lies within the threshold haversine distance of the event point; in
particular a polyline containing the exact event coordinate matches for
every threshold `≥ 0`. -/
theorem routeMatcher_polyline (coords : List (ℝ × ℝ)) (elat elon t : ℝ) :
    (isEventNearRouteAccurate coords elat elon t = true ↔
      ∃ p ∈ coords, haversineDistance p.1 p.2 elat elon ≤ t) ∧
    ((elat, elon) ∈ coords → 0 ≤ t →
      isEventNearRouteAccurate coords elat elon t = true) := by
  have hiff : isEventNearRouteAccurate coords elat elon t = true ↔
      ∃ p ∈ coords, haversineDistance p.1 p.2 elat elon ≤ t := by
    simp [isEventNearRouteAccurate, List.any_eq_true]
  refine ⟨hiff, fun hmem ht => ?_⟩
  exact hiff.mpr ⟨(elat, elon), hmem, by rw [haversineDistance_self]; exact ht⟩

/-- C7: the endpoint fallback accepts exactly when the event is within the
threshold of either endpoint, or the two legs' sum deviates from the
direct origin-destination distance by at most the threshold (the code
tests the absolute deviation; for genuine coordinates the sum never falls
below the direct distance, so this is the claim's "exceeds by no more than
the threshold"); in particular an event at either endpoint is accepted for
every non-negative threshold. -/
theorem routeMatcher_fallback (slat slon elat elon plat plon t : ℝ) :
    (isPointNearRoute slat slon elat elon plat plon t = true ↔
      haversineDistance slat slon plat plon ≤ t ∨
      haversineDistance elat elon plat plon ≤ t ∨
      |haversineDistance slat slon plat plon + haversineDistance elat elon plat plon -
          haversineDistance slat slon elat elon| ≤ t) ∧
    (0 ≤ t → isPointNearRoute slat slon elat elon slat slon t = true) ∧
    (0 ≤ t → isPointNearRoute slat slon elat elon elat elon t = true) := by
  refine ⟨?_, ?_, ?_⟩
  · simp only [isPointNearRoute]
    split_ifs with h1 h2
    · simp only [true_iff]
      exact Or.inr (Or.inr h1)
    · simp only [true_iff]
      rcases h2 with h | h
      · exact Or.inl h
      · exact Or.inr (Or.inl h)
    · simp only [Bool.false_eq_true, false_iff]
      push_neg at h2
      intro hor
      rcases hor with h | h | h
      · exact absurd h (not_le.mpr h2.1)
      · exact absurd h (not_le.mpr h2.2)
      · exact absurd h h1
  · intro ht
    simp only [isPointNearRoute]
    split_ifs with h1 h2
    · rfl
    · rfl
    · exact absurd (Or.inl (by rw [haversineDistance_self]; exact ht)) h2
  · intro ht
    simp only [isPointNearRoute]
    split_ifs with h1 h2
    · rfl
    · rfl
    · exact absurd (Or.inr (by rw [haversineDistance_self]; exact ht)) h2

end KtAlarm
